import Mathlib

/-!
Shallow embedding of `react-eve-hook` (src/eve.tsx): a React hook wrapping the
`mitt` event emitter with a per-component ledger of registered
(event, handler) pairs.

Modelling choices:
* An event identifier is a JavaScript `string | symbol | number`; we model it
  as an inductive with the JS notion of falsiness (`0` and `""` are falsy,
  symbols never are).  Strict equality `===` is decidable equality.
* A handler is a function reference, compared by identity; we model references
  as natural numbers.  A function value is always truthy in JS.
* The shared `mitt` emitter is modelled as a flat list of (event, handler)
  subscriptions: `emitter.on` appends, `emitter.off` removes the first
  subscription with the given event and handler (and is a no-op when absent,
  mirroring `indexOf >>> 0` + `splice`), `emit e` invokes, in order, the
  handlers of the subscriptions whose event is `e`.
* `useRef` state is explicit: `EveState` carries the component ledger and the
  shared bus, operations are pure state transformers that additionally return
  the list of bus-level unregister calls they issue.
* JS `array.sort()` with no comparator sorts by the decimal-string
  representation of the numbers (UTF-16 code-unit lexicographic order);
  `splice(i, 1)` removes the element at `i` and is a no-op when `i` is out of
  range — both are modelled exactly.
-/

/-- A JS event identifier: `string | symbol | number` (numbers restricted to
integers; `===` is decidable equality on this type). -/
inductive EventId
  | str : String → EventId
  | num : Int → EventId
  | sym : Nat → EventId
deriving DecidableEq, Repr

/-- JS falsiness of an event identifier: `""` and `0` are falsy, every other
string/number and every symbol is truthy. -/
def EventId.falsy : EventId → Bool
  | .str s => s = ""
  | .num n => n = 0
  | .sym _ => false

/-- A handler reference; identity comparison is equality of the reference. -/
abbrev HandlerId := Nat

/-- One tracked registration: the `HandlerEntry` interface of the source. -/
structure HandlerEntry where
  event : EventId
  handler : HandlerId
deriving DecidableEq, Repr

/-- The shared `mitt` emitter state: the subscriptions, in registration
order. -/
abbrev Bus := List HandlerEntry

/-- `emitter.on(event, handler)`: appends the subscription. -/
def busOn (bus : Bus) (e : EventId) (h : HandlerId) : Bus :=
  bus ++ [⟨e, h⟩]

/-- `emitter.off(event, handler)`: removes the first subscription for `event`
whose handler is reference-equal to `handler`; a no-op when none exists
(mitt uses `handlers.splice(handlers.indexOf(handler) >>> 0, 1)`). -/
def busOff : Bus → EventId → HandlerId → Bus
  | [], _, _ => []
  | s :: rest, e, h =>
    if s.event = e ∧ s.handler = h then rest else s :: busOff rest e h

/-- The hook's state: the `handlerRef.current` ledger plus the shared bus. -/
structure EveState where
  ledger : List HandlerEntry
  bus : Bus
deriving DecidableEq, Repr

/-- `emit`/dispatch: the handlers invoked (in order) when `e` is published,
read off the bus. -/
def emitCalls (st : EveState) (e : EventId) : List HandlerId :=
  (st.bus.filter fun s => decide (s.event = e)).map (·.handler)

/-- `on(event, handler)`: duplicate registrations (same event by `===`, same
handler by identity) are suppressed; otherwise subscribe on the emitter and
push onto the ledger. -/
def onEve (st : EveState) (event : EventId) (handler : HandlerId) : EveState :=
  if st.ledger.any fun ent => decide (ent.event = event ∧ ent.handler = handler) then
    st
  else
    { ledger := st.ledger ++ [⟨event, handler⟩], bus := busOn st.bus event handler }

/-- JS truthiness test `!event` on the optional event filter: `null` is falsy,
and so is a present but falsy identifier such as `0` or `""`. -/
def jsNotEvent : Option EventId → Bool
  | none => true
  | some e => e.falsy

/-- JS truthiness test `!handler` on the optional handler filter: `null` is
falsy, a function value is always truthy. -/
def jsNotHandler : Option HandlerId → Bool
  | none => true
  | some _ => false

/-- The filter predicate of `off`:
`(!event || event === e) && (!handler || handler === h)`. -/
def offMatch (event : Option EventId) (handler : Option HandlerId)
    (ent : HandlerEntry) : Bool :=
  (jsNotEvent event || decide (event = some ent.event)) &&
    (jsNotHandler handler || decide (handler = some ent.handler))

/-- The `forEach` loop of `off`, starting at index `i`: collects, in order,
the (index, entry) pairs of the entries matching the filter (the entry is the
`emitter.off(e, h)` call issued, the index goes into `deleteIndex`). -/
def collectFrom (event : Option EventId) (handler : Option HandlerId)
    (i : Nat) : List HandlerEntry → List (Nat × HandlerEntry)
  | [] => []
  | ent :: rest =>
    if offMatch event handler ent then
      (i, ent) :: collectFrom event handler (i + 1) rest
    else
      collectFrom event handler (i + 1) rest

/-- Lexicographic (UTF-16 code unit) order on decimal digit strings: the
comparison JS `Array.prototype.sort` applies by default, after converting the
numbers to strings. -/
def strLtChars : List Char → List Char → Bool
  | [], [] => false
  | [], _ :: _ => true
  | _ :: _, [] => false
  | a :: as, b :: bs =>
    if a.val < b.val then true
    else if b.val < a.val then false
    else strLtChars as bs

/-- JS default comparison of two numbers inside `sort()`: compare their
decimal string representations lexicographically. -/
def jsNumLt (a b : Nat) : Bool :=
  strLtChars (Nat.repr a).data (Nat.repr b).data

/-- Insertion step of the string-order sort. -/
def insertJs (x : Nat) : List Nat → List Nat
  | [] => [x]
  | y :: ys => if jsNumLt y x then y :: insertJs x ys else x :: y :: ys

/-- JS `deleteIndex.sort()`: sorts the indices as strings, ascending. -/
def jsSort : List Nat → List Nat
  | [] => []
  | x :: xs => insertJs x (jsSort xs)

/-- JS `array.splice(i, 1)` on the ledger: removes the element at index `i`,
a no-op when `i` is out of range — exactly `List.eraseIdx`. -/
def spliceDeletes (ledger : List HandlerEntry) (idxs : List Nat) :
    List HandlerEntry :=
  idxs.foldl (fun l i => l.eraseIdx i) ledger

/-- `off(event = null, handler = null)`: issue `emitter.off` for every
matching entry (with the entry's own stored fields), then delete the matched
indices from the ledger by `deleteIndex.sort().reverse().forEach(splice)`.
Returns the new state together with the list of bus-level unregister calls
issued, in order. -/
def off (st : EveState) (event : Option EventId) (handler : Option HandlerId) :
    EveState × List HandlerEntry :=
  let matched := collectFrom event handler 0 st.ledger
  let calls := matched.map (·.2)
  let deleteIndex := matched.map (·.1)
  let newBus := calls.foldl (fun b ent => busOff b ent.event ent.handler) st.bus
  let newLedger := spliceDeletes st.ledger ((jsSort deleteIndex).reverse)
  ({ ledger := newLedger, bus := newBus }, calls)

/-- `clear()`: `emitter.off` every tracked entry, then reset the ledger to the
empty array.  Returns the new state and the unregister calls issued. -/
def clear (st : EveState) : EveState × List HandlerEntry :=
  ({ ledger := [],
     bus := st.ledger.foldl (fun b ent => busOff b ent.event ent.handler) st.bus },
   st.ledger)

/-- The unmount cleanup effect: for every remaining tracked entry, attempt
`emitter.off` inside `try { … } catch { }`.  The bus-off operation is a
parameter that may fail (`Except`), modelling a bus that can throw; a failure
is swallowed and the loop continues.  Returns the final bus and the list of
entries for which an unregister was attempted, in order. -/
def unmountCleanup (busOffE : Bus → EventId → HandlerId → Except String Bus)
    (entries : List HandlerEntry) (bus : Bus) : Bus × List HandlerEntry :=
  entries.foldl
    (fun acc ent =>
      match busOffE acc.1 ent.event ent.handler with
      | .ok b => (b, acc.2 ++ [ent])
      | .error _ => (acc.1, acc.2 ++ [ent]))
    (bus, [])

/-- One `useEve` API call, for stating invariants over arbitrary call
sequences. -/
inductive EveOp
  | opOn : EventId → HandlerId → EveOp
  | opOff : Option EventId → Option HandlerId → EveOp
  | opClear : EveOp

/-- Apply one API call to the state. -/
def applyOp (st : EveState) : EveOp → EveState
  | .opOn e h => onEve st e h
  | .opOff e h => (off st e h).1
  | .opClear => (clear st).1

/-- Run a sequence of API calls. -/
def runOps (st : EveState) (ops : List EveOp) : EveState :=
  ops.foldl applyOp st

/-- The `useEffect` body of `useEveListen`: when a handler is present,
subscribe it and schedule a cleanup for exactly that pair; when the handler is
`undefined`, do nothing and schedule no cleanup.  Returns the new bus and the
scheduled cleanup (the pair the cleanup will unsubscribe). -/
def listenEffect (event : EventId) (handler : Option HandlerId) (bus : Bus) :
    Bus × Option HandlerEntry :=
  match handler with
  | none => (bus, none)
  | some h => (busOn bus event h, some ⟨event, h⟩)

/-- Running a scheduled `useEveListen` cleanup (none scheduled: no-op). -/
def listenCleanup (c : Option HandlerEntry) (bus : Bus) : Bus :=
  match c with
  | none => bus
  | some ent => busOff bus ent.event ent.handler

/-- A dependency change of `useEveListen` (`[event, handler]`): React runs the
old cleanup, then the new effect. -/
def listenRerun (c : Option HandlerEntry) (event : EventId)
    (handler : Option HandlerId) (bus : Bus) : Bus × Option HandlerEntry :=
  listenEffect event handler (listenCleanup c bus)

/-! ## Helper lemmas -/

/-- The duplicate-check of `on` succeeds exactly when the pair is a ledger
entry. -/
theorem anyPair_iff_mem (l : List HandlerEntry) (e : EventId) (h : HandlerId) :
    (l.any fun ent => decide (ent.event = e ∧ ent.handler = h)) = true ↔
      (⟨e, h⟩ : HandlerEntry) ∈ l := by
  rw [List.any_eq_true]
  constructor
  · rintro ⟨ent, hm, hp⟩
    obtain ⟨h1, h2⟩ := of_decide_eq_true hp
    have hent : ent = ⟨e, h⟩ := by cases ent; simp_all
    exact hent ▸ hm
  · intro hm
    exact ⟨⟨e, h⟩, hm, by simp⟩

/-- `on` on an already-tracked pair is a no-op. -/
theorem onEve_mem (st : EveState) (e : EventId) (h : HandlerId)
    (hmem : (⟨e, h⟩ : HandlerEntry) ∈ st.ledger) : onEve st e h = st := by
  unfold onEve
  rw [if_pos ((anyPair_iff_mem st.ledger e h).mpr hmem)]

/-- `on` on an untracked pair appends it to the ledger and subscribes it on
the bus. -/
theorem onEve_not_mem (st : EveState) (e : EventId) (h : HandlerId)
    (hmem : (⟨e, h⟩ : HandlerEntry) ∉ st.ledger) :
    onEve st e h = ⟨st.ledger ++ [⟨e, h⟩], st.bus ++ [⟨e, h⟩]⟩ := by
  unfold onEve
  rw [if_neg (fun hc => hmem ((anyPair_iff_mem st.ledger e h).mp hc))]
  rfl

/-- A second `on` with the same pair never changes the state further. -/
theorem onEve_idem (st : EveState) (e : EventId) (h : HandlerId) :
    onEve (onEve st e h) e h = onEve st e h := by
  by_cases hmem : (⟨e, h⟩ : HandlerEntry) ∈ st.ledger
  · rw [onEve_mem st e h hmem, onEve_mem st e h hmem]
  · rw [onEve_not_mem st e h hmem]
    exact onEve_mem _ e h (by simp)

/-- Appending a subscription for `e` appends its handler to the dispatch
list of `e`. -/
theorem emitCalls_bus_append_pair (l bus : List HandlerEntry) (e : EventId)
    (h : HandlerId) :
    emitCalls ⟨l, bus ++ [⟨e, h⟩]⟩ e = emitCalls ⟨l, bus⟩ e ++ [h] := by
  simp [emitCalls, List.filter_append]

/-! ## C4 and C10 -/

/-- C4: a second `register`/`on` of an already-tracked pair (event compared by
equality, handler by reference identity) is a no-op: the state (ledger and
bus) is unchanged, so no additional bus subscription appears; an untracked
pair is subscribed and appended exactly once, and after registering the same
pair twice a publish of the event delivers to the handler exactly once. -/
theorem on_duplicate_suppressed (st : EveState) (e : EventId) (h : HandlerId) :
    ((⟨e, h⟩ : HandlerEntry) ∈ st.ledger → onEve st e h = st) ∧
    onEve (onEve st e h) e h = onEve st e h ∧
    ((⟨e, h⟩ : HandlerEntry) ∉ st.ledger →
      onEve st e h = ⟨st.ledger ++ [⟨e, h⟩], st.bus ++ [⟨e, h⟩]⟩) ∧
    ((⟨e, h⟩ : HandlerEntry) ∉ st.ledger → (emitCalls st e).count h = 0 →
      (emitCalls (onEve (onEve st e h) e h) e).count h = 1) := by
  refine ⟨onEve_mem st e h, onEve_idem st e h, onEve_not_mem st e h, ?_⟩
  intro hmem hcount
  rw [onEve_idem st e h, onEve_not_mem st e h hmem]
  have : emitCalls ⟨st.ledger ++ [⟨e, h⟩], st.bus ++ [⟨e, h⟩]⟩ e =
      emitCalls ⟨st.ledger ++ [⟨e, h⟩], st.bus⟩ e ++ [h] :=
    emitCalls_bus_append_pair _ _ e h
  rw [this]
  have hbus : emitCalls ⟨st.ledger ++ [⟨e, h⟩], st.bus⟩ e = emitCalls st e := by
    simp [emitCalls]
  rw [hbus, List.count_append, hcount]
  simp

/-- C4 witness: duplicate registration of `("a", 5)` is a no-op on a state
tracking it, and registering `(1, 5)` twice from the empty state delivers
exactly once. -/
theorem on_duplicate_suppressed_witness :
    onEve ⟨[⟨.str "a", 5⟩], [⟨.str "a", 5⟩]⟩ (.str "a") 5 =
        ⟨[⟨.str "a", 5⟩], [⟨.str "a", 5⟩]⟩ ∧
      (emitCalls (onEve (onEve ⟨[], []⟩ (.num 1) 5) (.num 1) 5) (.num 1)).count 5 = 1 :=
  ⟨(on_duplicate_suppressed ⟨[⟨.str "a", 5⟩], [⟨.str "a", 5⟩]⟩ (.str "a") 5).1
      (by decide),
   (on_duplicate_suppressed ⟨[], []⟩ (.num 1) 5).2.2.2 (by decide) (by decide)⟩

/-- C10: the duplicate check of `on` uses strict equality on the event, not
truthiness: for a falsy event identifier (`0`, `""`) an untracked pair is
still appended (the falsy event never matches as a wildcard), and a repeated
registration of the falsy-event pair is still suppressed. -/
theorem on_falsy_event_strict (st : EveState) (e : EventId) (h : HandlerId)
    (hfalsy : e.falsy = true) :
    ((∀ ent ∈ st.ledger, ¬(ent.event = e ∧ ent.handler = h)) →
      onEve st e h = ⟨st.ledger ++ [⟨e, h⟩], st.bus ++ [⟨e, h⟩]⟩) ∧
    onEve (onEve st e h) e h = onEve st e h := by
  refine ⟨?_, onEve_idem st e h⟩
  intro hnone
  refine onEve_not_mem st e h ?_
  intro hmem
  exact hnone ⟨e, h⟩ hmem ⟨rfl, rfl⟩

/-- C10 witness: with a falsy event id `0`, on a ledger that tracks `(1, 7)`
(same handler, different event), registering `(0, 7)` still appends — the
falsy id does not match as a wildcard — and registering it twice is
suppressed. -/
theorem on_falsy_event_strict_witness :
    (EventId.num 0).falsy = true ∧
      onEve ⟨[⟨.num 1, 7⟩], [⟨.num 1, 7⟩]⟩ (.num 0) 7 =
        ⟨[⟨.num 1, 7⟩, ⟨.num 0, 7⟩], [⟨.num 1, 7⟩, ⟨.num 0, 7⟩]⟩ ∧
      onEve (onEve ⟨[], []⟩ (.str "") 3) (.str "") 3 = onEve ⟨[], []⟩ (.str "") 3 :=
  ⟨by decide,
   (on_falsy_event_strict ⟨[⟨.num 1, 7⟩], [⟨.num 1, 7⟩]⟩ (.num 0) 7 (by decide)).1
     (by decide),
   (on_falsy_event_strict ⟨[], []⟩ (.str "") 3 (by decide)).2⟩

/-! ## Lemmas about the off loop -/

/-- The entries collected by the `off` loop are exactly the matching entries,
in ledger order. -/
theorem collectFrom_map_snd (ev : Option EventId) (hf : Option HandlerId)
    (l : List HandlerEntry) :
    ∀ i, (collectFrom ev hf i l).map (·.2) = l.filter (offMatch ev hf) := by
  induction l with
  | nil => intro i; rfl
  | cons ent rest ih =>
    intro i
    cases hm : offMatch ev hf ent with
    | true => simp [collectFrom, hm, List.filter_cons, ih]
    | false => simp [collectFrom, hm, List.filter_cons, ih]

/-- When no entry matches, the `off` loop collects nothing. -/
theorem collectFrom_eq_nil (ev : Option EventId) (hf : Option HandlerId)
    (l : List HandlerEntry) (hnone : ∀ ent ∈ l, offMatch ev hf ent = false) :
    ∀ i, collectFrom ev hf i l = [] := by
  induction l with
  | nil => intro i; rfl
  | cons ent rest ih =>
    intro i
    have h1 : offMatch ev hf ent = false := hnone ent (List.mem_cons_self _ _)
    simp only [collectFrom, h1, Bool.false_eq_true, if_false]
    exact ih (fun x hx => hnone x (List.mem_cons_of_mem _ hx)) (i + 1)

/-- Each splice removes at most one element: the spliced ledger is a sublist
of the original. -/
theorem spliceDeletes_sublist :
    ∀ (idxs : List Nat) (l : List HandlerEntry),
      List.Sublist (spliceDeletes l idxs) l := by
  intro idxs
  induction idxs with
  | nil => intro l; exact List.Sublist.refl l
  | cons i rest ih =>
    intro l
    exact (ih (l.eraseIdx i)).trans (List.eraseIdx_sublist l i)

/-- The ledger after `off` is a sublist of the ledger before. -/
theorem off_ledger_sublist (st : EveState) (ev : Option EventId)
    (hf : Option HandlerId) :
    List.Sublist ((off st ev hf).1.ledger) st.ledger :=
  spliceDeletes_sublist _ st.ledger

/-! ## C6 -/

/-- C6: when the filter matches no tracked entry (including removal of a pair
that was already removed or never registered here), `off` is a safe no-op:
the state is returned unchanged and no bus-level unregister call is made. -/
theorem off_no_match_noop (st : EveState) (ev : Option EventId)
    (hf : Option HandlerId)
    (hnone : ∀ ent ∈ st.ledger, offMatch ev hf ent = false) :
    off st ev hf = (st, []) := by
  unfold off
  rw [collectFrom_eq_nil ev hf st.ledger hnone 0]
  rfl

/-- C6 witness: removing the never-registered pair `(2, 7)` from a state
tracking only `(1, 5)` changes nothing and issues no unregister call. -/
theorem off_no_match_noop_witness :
    off ⟨[⟨.num 1, 5⟩], [⟨.num 1, 5⟩]⟩ (some (.num 2)) (some 7) =
      (⟨[⟨.num 1, 5⟩], [⟨.num 1, 5⟩]⟩, []) :=
  off_no_match_noop ⟨[⟨.num 1, 5⟩], [⟨.num 1, 5⟩]⟩ (some (.num 2)) (some 7)
    (by decide)

/-! ## C2: falsy event filters -/

/-- C2 counterexample: with ledger `[(0, 1), (1, 2)]`, calling
`off(0)` — event id `0` present, no handler filter — also unregisters the
entry whose event is `1` and empties the whole ledger: the present-but-falsy
filter value `0` is treated exactly like the match-anything sentinel, so the
call does not remove only the entries whose event equals `0`. -/
theorem off_falsy_event_counterexample :
    (⟨.num 1, 2⟩ : HandlerEntry) ∈
        (off ⟨[⟨.num 0, 1⟩, ⟨.num 1, 2⟩], [⟨.num 0, 1⟩, ⟨.num 1, 2⟩]⟩
          (some (.num 0)) none).2 ∧
      (off ⟨[⟨.num 0, 1⟩, ⟨.num 1, 2⟩], [⟨.num 0, 1⟩, ⟨.num 1, 2⟩]⟩
          (some (.num 0)) none).1.ledger = [] := by
  decide

/-- C2 amended: for a present and *truthy* event id, `off(eventId)` matches
(and unregisters from the bus) exactly the tracked entries whose event equals
`eventId`, and `off(eventId, handler)` exactly the entries equal to the pair;
a present-but-falsy event id (`0`, `""`) is instead treated as the
match-anything sentinel. -/
theorem off_truthy_event_filters_exactly (st : EveState) (ev : EventId)
    (h : HandlerId) (htruthy : ev.falsy = false) :
    (off st (some ev) none).2 =
        st.ledger.filter (fun ent => decide (ev = ent.event)) ∧
      (off st (some ev) (some h)).2 =
        st.ledger.filter
          (fun ent => decide (ev = ent.event) && decide (h = ent.handler)) := by
  constructor
  · show (collectFrom (some ev) none 0 st.ledger).map (·.2) = _
    rw [collectFrom_map_snd]
    have hp : offMatch (some ev) none = fun ent => decide (ev = ent.event) := by
      funext ent
      simp [offMatch, jsNotEvent, jsNotHandler, htruthy]
    rw [hp]
  · show (collectFrom (some ev) (some h) 0 st.ledger).map (·.2) = _
    rw [collectFrom_map_snd]
    have hp : offMatch (some ev) (some h) =
        fun ent => decide (ev = ent.event) && decide (h = ent.handler) := by
      funext ent
      simp [offMatch, jsNotEvent, jsNotHandler, htruthy]
    rw [hp]

/-- C2 amended witness: on a ledger tracking `(1, 5)`, `(2, 6)`, `(1, 7)`,
`off(1)` matches exactly the two event-1 entries, and `off(1, 7)` exactly the
pair `(1, 7)`. -/
theorem off_truthy_event_filters_exactly_witness :
    (off ⟨[⟨.num 1, 5⟩, ⟨.num 2, 6⟩, ⟨.num 1, 7⟩], []⟩ (some (.num 1)) none).2 =
        [⟨.num 1, 5⟩, ⟨.num 1, 7⟩] ∧
      (off ⟨[⟨.num 1, 5⟩, ⟨.num 2, 6⟩, ⟨.num 1, 7⟩], []⟩ (some (.num 1))
          (some 7)).2 = [⟨.num 1, 7⟩] := by
  have hth := off_truthy_event_filters_exactly
    ⟨[⟨.num 1, 5⟩, ⟨.num 2, 6⟩, ⟨.num 1, 7⟩], []⟩ (.num 1) 7 (by decide)
  exact ⟨hth.1.trans (by decide), hth.2.trans (by decide)⟩

/-! ## C5: no-duplicate invariant -/

/-- `on` preserves ledger no-duplication. -/
theorem onEve_ledger_nodup (st : EveState) (e : EventId) (h : HandlerId)
    (hnd : st.ledger.Nodup) : (onEve st e h).ledger.Nodup := by
  by_cases hmem : (⟨e, h⟩ : HandlerEntry) ∈ st.ledger
  · rw [onEve_mem st e h hmem]; exact hnd
  · rw [onEve_not_mem st e h hmem]
    simp [List.nodup_append, hnd, hmem]

/-- Every single API call preserves ledger no-duplication. -/
theorem applyOp_ledger_nodup (st : EveState) (op : EveOp)
    (hnd : st.ledger.Nodup) : (applyOp st op).ledger.Nodup := by
  cases op with
  | opOn e h => exact onEve_ledger_nodup st e h hnd
  | opOff ev hf => exact hnd.sublist (off_ledger_sublist st ev hf)
  | opClear => exact List.nodup_nil

/-- No-duplication is preserved along any call sequence. -/
theorem runOps_ledger_nodup (ops : List EveOp) :
    ∀ st : EveState, st.ledger.Nodup → (runOps st ops).ledger.Nodup := by
  induction ops with
  | nil => intro st h; exact h
  | cons op rest ih =>
    intro st h
    exact ih (applyOp st op) (applyOp_ledger_nodup st op h)

/-- C5: starting from the empty ledger, any sequence of `on`, `off` and
`clear` calls leaves the ledger free of duplicate (event, handler) pairs. -/
theorem ledger_invariant_no_duplicates (ops : List EveOp) (bus0 : Bus) :
    (runOps ⟨[], bus0⟩ ops).ledger.Nodup :=
  runOps_ledger_nodup ops ⟨[], bus0⟩ List.nodup_nil

/-! ## C7: unmount cleanup -/

/-- The unmount loop records an attempt for every entry, whatever the bus-off
operation returns. -/
theorem unmountCleanup_foldl_snd
    (f : Bus → EventId → HandlerId → Except String Bus) :
    ∀ (entries : List HandlerEntry) (bus : Bus) (acc : List HandlerEntry),
      (entries.foldl
          (fun acc2 ent =>
            match f acc2.1 ent.event ent.handler with
            | .ok b => (b, acc2.2 ++ [ent])
            | .error _ => (acc2.1, acc2.2 ++ [ent]))
          (bus, acc)).2 = acc ++ entries := by
  intro entries
  induction entries with
  | nil => intro bus acc; simp
  | cons ent rest ih =>
    intro bus acc
    rw [List.foldl_cons]
    cases hf : f bus ent.event ent.handler with
    | ok b =>
      simp only [hf]
      rw [ih b (acc ++ [ent])]
      simp
    | error err =>
      simp only [hf]
      rw [ih bus (acc ++ [ent])]
      simp

/-- When every bus-off call fails, the loop still walks all entries, keeps
the bus as it was, and never propagates the error. -/
theorem unmountCleanup_error_aux :
    ∀ (entries : List HandlerEntry) (bus : Bus) (acc : List HandlerEntry),
      (entries.foldl
          (fun (acc2 : Bus × List HandlerEntry) ent =>
            ((acc2.1, acc2.2 ++ [ent]) : Bus × List HandlerEntry))
          (bus, acc)) = (bus, acc ++ entries) := by
  intro entries
  induction entries with
  | nil => intro bus acc; simp
  | cons ent rest ih =>
    intro bus acc
    rw [List.foldl_cons, ih bus (acc ++ [ent])]
    simp

/-- C7: the unmount cleanup attempts a bus-level unregister for every
remaining tracked entry independently, for an arbitrary (possibly throwing)
bus-off operation — the function is total, so an error raised by one entry is
caught and never propagated; in particular even when every unregister throws,
all entries are still attempted and the loop completes. -/
theorem unmount_cleanup_attempts_all
    (f : Bus → EventId → HandlerId → Except String Bus)
    (entries : List HandlerEntry) (bus : Bus) :
    (unmountCleanup f entries bus).2 = entries ∧
      unmountCleanup (fun _ _ _ => Except.error "bus failure") entries bus
        = (bus, entries) := by
  constructor
  · exact unmountCleanup_foldl_snd f entries bus []
  · exact unmountCleanup_error_aux entries bus []

/-! ## C8: frame property across ledgers -/

/-- `emitter.off` for a handler with a different reference never removes a
given subscription. -/
theorem mem_busOff_of_handler_ne (b : Bus) (e : EventId) (h : HandlerId)
    (e2 : EventId) (h2 : HandlerId) (hne : h ≠ h2)
    (hmem : (⟨e2, h2⟩ : HandlerEntry) ∈ b) :
    (⟨e2, h2⟩ : HandlerEntry) ∈ busOff b e h := by
  induction b with
  | nil => cases hmem
  | cons s rest ih =>
    by_cases hc : s.event = e ∧ s.handler = h
    · rw [busOff, if_pos hc]
      rcases List.mem_cons.mp hmem with hs | hrest
      · exfalso
        apply hne
        rw [← hc.2, ← hs]
      · exact hrest
    · rw [busOff, if_neg hc]
      rcases List.mem_cons.mp hmem with hs | hrest
      · exact hs ▸ List.mem_cons_self _ _
      · exact List.mem_cons_of_mem _ (ih hrest)

/-- Folding `emitter.off` over calls whose handlers are all distinct from
`h2` keeps the `(e2, h2)` subscription registered. -/
theorem mem_foldBusOff :
    ∀ (calls : List HandlerEntry) (bus : Bus) (e2 : EventId) (h2 : HandlerId),
      (∀ ent ∈ calls, ent.handler ≠ h2) →
      (⟨e2, h2⟩ : HandlerEntry) ∈ bus →
      (⟨e2, h2⟩ : HandlerEntry) ∈
        calls.foldl (fun b ent => busOff b ent.event ent.handler) bus := by
  intro calls
  induction calls with
  | nil => intro bus e2 h2 _ hmem; exact hmem
  | cons c rest ih =>
    intro bus e2 h2 hne hmem
    exact ih _ e2 h2 (fun ent hm => hne ent (List.mem_cons_of_mem _ hm))
      (mem_busOff_of_handler_ne bus c.event c.handler e2 h2
        (hne c (List.mem_cons_self _ _)) hmem)

/-- A registered subscription receives the publish. -/
theorem mem_emitCalls (st : EveState) (e : EventId) (h : HandlerId)
    (hmem : (⟨e, h⟩ : HandlerEntry) ∈ st.bus) : h ∈ emitCalls st e :=
  List.mem_map.mpr ⟨⟨e, h⟩, List.mem_filter.mpr ⟨hmem, by simp⟩, rfl⟩

/-- C8: `off` and `clear` on one ledger only unregister pairs tracked in that
ledger, so a subscription `(e2, h2)` whose handler reference differs from
every handler of this ledger stays on the bus and keeps receiving
deliveries. -/
theorem off_clear_frame_other_ledger (l1 : List HandlerEntry) (bus : Bus)
    (ev : Option EventId) (hf : Option HandlerId) (e2 : EventId)
    (h2 : HandlerId) (hdist : ∀ ent ∈ l1, ent.handler ≠ h2)
    (hmem : (⟨e2, h2⟩ : HandlerEntry) ∈ bus) :
    ((⟨e2, h2⟩ : HandlerEntry) ∈ ((off ⟨l1, bus⟩ ev hf).1).bus ∧
        h2 ∈ emitCalls (off ⟨l1, bus⟩ ev hf).1 e2) ∧
      (⟨e2, h2⟩ : HandlerEntry) ∈ ((clear ⟨l1, bus⟩).1).bus ∧
        h2 ∈ emitCalls (clear ⟨l1, bus⟩).1 e2 := by
  have hoff : (⟨e2, h2⟩ : HandlerEntry) ∈ ((off ⟨l1, bus⟩ ev hf).1).bus := by
    show (⟨e2, h2⟩ : HandlerEntry) ∈
      ((collectFrom ev hf 0 l1).map (·.2)).foldl
        (fun b ent => busOff b ent.event ent.handler) bus
    rw [collectFrom_map_snd]
    exact mem_foldBusOff _ bus e2 h2
      (fun ent hent => hdist ent (List.mem_filter.mp hent).1) hmem
  have hclear : (⟨e2, h2⟩ : HandlerEntry) ∈ ((clear ⟨l1, bus⟩).1).bus :=
    mem_foldBusOff l1 bus e2 h2 hdist hmem
  exact ⟨⟨hoff, mem_emitCalls _ e2 h2 hoff⟩, hclear, mem_emitCalls _ e2 h2 hclear⟩

/-- C8 witness: ledger 1 tracks `("x", 1)`; ledger 2's subscription
`("x", 2)` survives both `off("x")` and `clear()` of ledger 1 and still
receives publishes of `"x"`. -/
theorem off_clear_frame_other_ledger_witness :
    ((⟨.str "x", 2⟩ : HandlerEntry) ∈
        ((off ⟨[⟨.str "x", 1⟩], [⟨.str "x", 1⟩, ⟨.str "x", 2⟩]⟩
          (some (.str "x")) none).1).bus ∧
      2 ∈ emitCalls (off ⟨[⟨.str "x", 1⟩], [⟨.str "x", 1⟩, ⟨.str "x", 2⟩]⟩
          (some (.str "x")) none).1 (.str "x")) ∧
      (⟨.str "x", 2⟩ : HandlerEntry) ∈
        ((clear ⟨[⟨.str "x", 1⟩], [⟨.str "x", 1⟩, ⟨.str "x", 2⟩]⟩).1).bus ∧
        2 ∈ emitCalls (clear ⟨[⟨.str "x", 1⟩], [⟨.str "x", 1⟩, ⟨.str "x", 2⟩]⟩).1
          (.str "x") :=
  off_clear_frame_other_ledger [⟨.str "x", 1⟩] [⟨.str "x", 1⟩, ⟨.str "x", 2⟩]
    (some (.str "x")) none (.str "x") 2 (by decide) (by decide)

/-! ## C9: useEveListen -/

/-- Removing a just-appended subscription that was not otherwise on the bus
restores the bus. -/
theorem busOff_append_self (bus : Bus) (e : EventId) (h : HandlerId)
    (hmem : (⟨e, h⟩ : HandlerEntry) ∉ bus) :
    busOff (bus ++ [⟨e, h⟩]) e h = bus := by
  induction bus with
  | nil => simp [busOff]
  | cons s rest ih =>
    rw [List.cons_append]
    have hs : ¬(s.event = e ∧ s.handler = h) := by
      rintro ⟨h1, h2⟩
      apply hmem
      have hseq : s = ⟨e, h⟩ := by cases s; simp_all
      rw [← hseq]
      exact List.mem_cons_self _ _
    rw [busOff, if_neg hs, ih (fun hm => hmem (List.mem_cons_of_mem _ hm))]

/-- C9: the `useEveListen` effect with an absent handler registers nothing
and schedules no cleanup (so unmounting does nothing); with a present handler
it registers the pair and schedules its cleanup, unmounting restores the bus,
and a change of the `[event, handler]` identities first unregisters the old
pair and then registers the new one in its place. -/
theorem useEveListen_lifecycle (e e2 : EventId) (h h2 : HandlerId) (bus : Bus)
    (hnot : (⟨e, h⟩ : HandlerEntry) ∉ bus) :
    listenEffect e none bus = (bus, none) ∧
    listenCleanup none bus = bus ∧
    listenEffect e (some h) bus = (bus ++ [⟨e, h⟩], some ⟨e, h⟩) ∧
    listenCleanup (some ⟨e, h⟩) (bus ++ [⟨e, h⟩]) = bus ∧
    listenRerun (some ⟨e, h⟩) e2 (some h2) (bus ++ [⟨e, h⟩]) =
      (bus ++ [⟨e2, h2⟩], some ⟨e2, h2⟩) := by
  have hclean : listenCleanup (some ⟨e, h⟩) (bus ++ [⟨e, h⟩]) = bus :=
    busOff_append_self bus e h hnot
  refine ⟨rfl, rfl, rfl, hclean, ?_⟩
  unfold listenRerun
  rw [hclean]
  rfl

/-- C9 witness: on the empty bus, `useEveListen("a", 3)` registers and
schedules cleanup, a dependency change to `("b", 4)` swaps the registration,
and the absent-handler form does nothing. -/
theorem useEveListen_lifecycle_witness :
    listenEffect (.str "a") none [] = ([], none) ∧
    listenCleanup none [] = [] ∧
    listenEffect (.str "a") (some 3) [] = ([⟨.str "a", 3⟩], some ⟨.str "a", 3⟩) ∧
    listenCleanup (some ⟨.str "a", 3⟩) [⟨.str "a", 3⟩] = [] ∧
    listenRerun (some ⟨.str "a", 3⟩) (.str "b") (some 4) [⟨.str "a", 3⟩] =
      ([⟨.str "b", 4⟩], some ⟨.str "b", 4⟩) :=
  useEveListen_lifecycle (.str "a") (.str "b") 3 4 [] (by decide)

/-! ## C1 and C3: the lexicographic sort of deleteIndex -/

/-- A 12-entry ledger whose entries at indices 2 and 10 share handler 99. -/
def bugLedger : List HandlerEntry :=
  [⟨.num 0, 0⟩, ⟨.num 1, 1⟩, ⟨.num 2, 99⟩, ⟨.num 3, 3⟩, ⟨.num 4, 4⟩,
   ⟨.num 5, 5⟩, ⟨.num 6, 6⟩, ⟨.num 7, 7⟩, ⟨.num 8, 8⟩, ⟨.num 9, 9⟩,
   ⟨.num 10, 99⟩, ⟨.num 11, 11⟩]

/-- C1: `off(null, 99)` on `bugLedger` matches the entries at indices 2 and
10 and correctly issues exactly their two bus-level unregister calls (with
the entries' own stored fields), but the ledger afterwards is not the list of
non-matching entries: `deleteIndex = [2, 10]` string-sorts to `[10, 2]` and
reverses to `[2, 10]`, so after `splice(2)` the `splice(10)` of the shrunken
list deletes the non-matching entry originally at index 11, while the matched
entry originally at index 10 stays tracked. -/
theorem off_sort_bug_divergence :
    (off ⟨bugLedger, []⟩ none (some 99)).2 = [⟨.num 2, 99⟩, ⟨.num 10, 99⟩] ∧
      (⟨.num 10, 99⟩ : HandlerEntry) ∈ (off ⟨bugLedger, []⟩ none (some 99)).1.ledger ∧
      (⟨.num 11, 11⟩ : HandlerEntry) ∉ (off ⟨bugLedger, []⟩ none (some 99)).1.ledger ∧
      (off ⟨bugLedger, []⟩ none (some 99)).1.ledger ≠
        bugLedger.filter (fun ent => !(offMatch none (some 99) ent)) := by
  decide

/-- An 11-entry ledger with pairwise-distinct entries. -/
def elevenLedger : List HandlerEntry :=
  [⟨.num 0, 0⟩, ⟨.num 1, 1⟩, ⟨.num 2, 2⟩, ⟨.num 3, 3⟩, ⟨.num 4, 4⟩,
   ⟨.num 5, 5⟩, ⟨.num 6, 6⟩, ⟨.num 7, 7⟩, ⟨.num 8, 8⟩, ⟨.num 9, 9⟩,
   ⟨.num 10, 10⟩]

/-- C3: `clear()` and no-argument `off()` issue the same bus-level
unregister calls (one per tracked entry, in order), but their resulting
ledgers differ on an 11-entry ledger: `clear()` empties the ledger while
`off()` leaves the entry at index 10 tracked, because the string sort of
`deleteIndex = [0, …, 10]` places `10` between `1` and `2` and the
corresponding splice hits an out-of-range index after the list has shrunk. -/
theorem clear_off_divergence :
    (clear ⟨elevenLedger, []⟩).2 = (off ⟨elevenLedger, []⟩ none none).2 ∧
      (clear ⟨elevenLedger, []⟩).1.bus = (off ⟨elevenLedger, []⟩ none none).1.bus ∧
      (clear ⟨elevenLedger, []⟩).1.ledger = [] ∧
      (off ⟨elevenLedger, []⟩ none none).1.ledger = [⟨.num 10, 10⟩] ∧
      (off ⟨elevenLedger, []⟩ none none).1 ≠ (clear ⟨elevenLedger, []⟩).1 := by
  decide
